import Mathlib

/-!
Verification of the pdfire option-resolution engine and merge coordinator.

The Go sources are embedded shallowly:
* JSON values decoded by `encoding/json` into `map[string]interface{}` are
  modelled by `JValue` / `JMap` (Go decodes every JSON number as `float64`,
  modelled exactly by `ℚ`).
* `float64` arithmetic is modelled by exact rational arithmetic over `ℚ`.
* `time.Duration` (an `int64` count of nanoseconds) is modelled by `ℤ`.
* Fallible Go functions returning `(T, error)` become `Except ResolveError T`;
  the margin-parsing family, which returns its partial values *together with*
  the error (all five Go return values), becomes `Margins × Option ResolveError`.
-/

/-- A decoded JSON value, as produced by Go `encoding/json` into
`interface{}`: `nil`, `bool`, `float64`, `string`, `[]interface{}`,
`map[string]interface{}`. -/
inductive JValue where
  | null : JValue
  | bool : Bool → JValue
  | num : ℚ → JValue
  | str : String → JValue
  | arr : List JValue → JValue
  | obj : List (String × JValue) → JValue

/-- A decoded JSON object (`map[string]interface{}`); keys are assumed
distinct, as JSON decoding produces. -/
abbrev JMap := List (String × JValue)

/-- Go map indexing `jsonMap[key]` (`value, ok := jsonMap[key]`). -/
def mapGet (m : JMap) (k : String) : Option JValue :=
  match m with
  | [] => none
  | (k', v) :: rest => if k' = k then some v else mapGet rest k

/-!
Rational arithmetic helpers.  The standard `ℚ` operations of Mathlib do not
reduce inside the kernel, so the embedding computes with `mkRat`-based
equivalents; the bridge lemmas `qAdd_eq`, `qSub_eq`, `qMul_eq`, `qInv_eq`
and `qDiv_eq` below identify them with `+`, `-`, `*`, `⁻¹` and `/`, so the
theorems can be read with the ordinary operations.
-/

/-- Addition on `ℚ` (kernel-computable form); equal to `a + b`. -/
def qAdd (a b : ℚ) : ℚ :=
  mkRat (a.num * b.den + b.num * a.den) (a.den * b.den)

/-- Subtraction on `ℚ` (kernel-computable form); equal to `a - b`. -/
def qSub (a b : ℚ) : ℚ :=
  mkRat (a.num * b.den - b.num * a.den) (a.den * b.den)

/-- Multiplication on `ℚ` (kernel-computable form); equal to `a * b`. -/
def qMul (a b : ℚ) : ℚ :=
  mkRat (a.num * b.num) (a.den * b.den)

/-- Inverse on `ℚ` (kernel-computable form); equal to `b⁻¹` (with `0⁻¹ = 0`). -/
def qInv (b : ℚ) : ℚ :=
  if b.num < 0 then mkRat (-(b.den : ℤ)) b.num.natAbs
  else mkRat (b.den : ℤ) b.num.toNat

/-- Division on `ℚ` (kernel-computable form); equal to `a / b` (with
`a / 0 = 0`). -/
def qDiv (a b : ℚ) : ℚ :=
  qMul a (qInv b)

/-- Cast of an integer into `ℚ` (kernel-computable form). -/
def qOfInt (n : ℤ) : ℚ :=
  mkRat n 1

/-- Go `math.Round`: round to nearest integer, halves away from zero. -/
def goRound (q : ℚ) : ℤ :=
  if 0 ≤ q then ⌊qAdd q (mkRat 1 2)⌋ else ⌈qSub q (mkRat 1 2)⌉

/-- Go `int64(v)` conversion of a `float64`: truncation toward zero. -/
def goInt64 (q : ℚ) : ℤ :=
  if 0 ≤ q then ⌊q⌋ else ⌈q⌉

/-- `pixelToInch` (conversion_options.go): `math.Round((pixel*100)/96) / 100`. -/
def pixelToInch (pixel : ℚ) : ℚ :=
  qDiv (qOfInt (goRound (qDiv (qMul pixel 100) 96))) 100

/-- Errors produced by the option resolvers.  `invalidJSON` models
`ErrInvalidJSON`, `parseErr` models `*ParseError{Key, Value}` (the `Value`
field holds the offending raw value when one is recorded), `numErr` models a
`strconv.ParseFloat` failure on the given text, and `invalidUnitErr` models
`errors.New("invalid unit")` from `stringToInch`. -/
inductive ResolveError where
  | invalidJSON : ResolveError
  | parseErr : String → Option JValue → ResolveError
  | numErr : String → ResolveError
  | invalidUnitErr : ResolveError

/-- `parseBool` (conversion_options.go). -/
def parseBool (m : JMap) (key : String) (dflt : Bool) : Except ResolveError Bool :=
  match mapGet m key with
  | none => .ok dflt
  | some (.bool b) => .ok b
  | some v => .error (.parseErr key (some v))

/-- `parseFloat64` (conversion_options.go). -/
def parseFloat64 (m : JMap) (key : String) (dflt : ℚ) : Except ResolveError ℚ :=
  match mapGet m key with
  | none => .ok dflt
  | some (.num q) => .ok q
  | some v => .error (.parseErr key (some v))

/-- `parseInt64` (conversion_options.go); JSON numbers arrive as `float64`
and are truncated by `int64(v)`. -/
def parseInt64 (m : JMap) (key : String) (dflt : ℤ) : Except ResolveError ℤ :=
  match mapGet m key with
  | none => .ok dflt
  | some (.num q) => .ok (goInt64 q)
  | some v => .error (.parseErr key (some v))

/-- `parseDuration` (conversion_options.go): reads the value as int64
milliseconds (the function's own `def` parameter is ignored — the Go body
passes the literal `0` to `parseInt64`), clamps negatives to 0, and scales to
nanoseconds (`time.Duration(val) * time.Millisecond`). -/
def parseDuration (m : JMap) (key : String) (_dflt : ℤ) : Except ResolveError ℤ :=
  match parseInt64 m key 0 with
  | .error e => .error e
  | .ok v => .ok ((if v < 0 then 0 else v) * 1000000)

/-- `parseString` (conversion_options.go). -/
def parseString (m : JMap) (key dflt : String) : Except ResolveError String :=
  match mapGet m key with
  | none => .ok dflt
  | some (.str s) => .ok s
  | some v => .error (.parseErr key (some v))

/-- `parseStringOnly` (conversion_options.go): like `parseString` but the
value must be in the allow-list, else `ParseError` (carrying the value). -/
def parseStringOnly (m : JMap) (key dflt : String) (allowed : List String) :
    Except ResolveError String :=
  match parseString m key dflt with
  | .error e => .error e
  | .ok p => if p ∈ allowed then .ok p else .error (.parseErr key (some (.str p)))

/-- `parseHeaders` (conversion_options.go): the `headers` value must be a
JSON object (Go `map[string]interface{}`), default empty. -/
def parseHeaders (m : JMap) : Except ResolveError JMap :=
  match mapGet m "headers" with
  | none => .ok []
  | some (.obj o) => .ok o
  | some v => .error (.parseErr "headers" (some v))

/-- `parseEmulateMedia` (conversion_options.go): `emulateMedia` must be
absent (default), or one of the strings "screen" / "print". -/
def parseEmulateMedia (m : JMap) (dflt : String) : Except ResolveError String :=
  match mapGet m "emulateMedia" with
  | none => .ok dflt
  | some (.str s) =>
    if s = "screen" ∨ s = "print" then .ok s
    else .error (.parseErr "emulateMedia" (some (.str s)))
  | some v => .error (.parseErr "emulateMedia" (some v))

/-- `UnitToPixels` (conversion_options.go): to-pixel ratios
`{px: 1, in: 96, cm: 37.8, mm: 3.78}` (decimals written as exact
rationals). -/
def unitToPixels (u : String) : Option ℚ :=
  if u = "px" then some 1
  else if u = "in" then some 96
  else if u = "cm" then some (mkRat 189 5)
  else if u = "mm" then some (mkRat 189 50)
  else none

/-- `PaperFormats` (conversion_options.go): named paper presets in inches
(decimals written as exact rationals: a0 = 33.1×46.8, a1 = 23.4×33.1,
a2 = 16.54×23.4, a3 = 11.7×16.54, a4 = 8.27×11.7, a5 = 5.83×8.27,
a6 = 4.13×5.83, letter/legal = 8.5 wide). -/
def paperFormats (f : String) : Option (ℚ × ℚ) :=
  if f = "letter" then some (mkRat 17 2, 11)
  else if f = "legal" then some (mkRat 17 2, 14)
  else if f = "tabloid" then some (11, 17)
  else if f = "ledger" then some (17, 11)
  else if f = "a0" then some (mkRat 331 10, mkRat 234 5)
  else if f = "a1" then some (mkRat 117 5, mkRat 331 10)
  else if f = "a2" then some (mkRat 827 50, mkRat 117 5)
  else if f = "a3" then some (mkRat 117 10, mkRat 827 50)
  else if f = "a4" then some (mkRat 827 100, mkRat 117 10)
  else if f = "a5" then some (mkRat 583 100, mkRat 827 100)
  else if f = "a6" then some (mkRat 413 100, mkRat 583 100)
  else none

/-- Digits of a decimal numeral to a natural number. -/
def digitsToNat (cs : List Char) : ℕ :=
  cs.foldl (fun n c => 10 * n + (c.toNat - '0'.toNat)) 0

/-- Models `strconv.ParseFloat(s, 64)` on its plain decimal fragment:
an optional sign, an integer part and an optional fractional part, with at
least one digit overall and no other characters (the exponent / hex / inf
forms accepted by Go never arise here).  The empty string and non-numeric
text are rejected, as in Go.  The value `±(ip.fp)` is the exact rational
`±(ip·10^k + fp) / 10^k` where `k` is the fraction length. -/
def parseDecimal (s : String) : Option ℚ :=
  let (sign, cs) : ℤ × List Char :=
    match s.data with
    | '-' :: t => (-1, t)
    | '+' :: t => (1, t)
    | t => (1, t)
  let ip := cs.takeWhile Char.isDigit
  let rest := cs.dropWhile Char.isDigit
  match rest with
  | [] => if ip.isEmpty then none else some (mkRat (sign * digitsToNat ip) 1)
  | '.' :: fp =>
    if fp.all Char.isDigit ∧ ¬(ip.isEmpty ∧ fp.isEmpty) then
      some (mkRat (sign * (digitsToNat ip * 10 ^ fp.length + digitsToNat fp)) (10 ^ fp.length))
    else none
  | _ => none

/-- The regexp replacement `[a-zA-Z]+$` → "" in `stringToInch`: strip the
maximal trailing run of ASCII letters. -/
def stripTrailingLetters (s : String) : String :=
  ⟨(s.data.reverse.dropWhile Char.isAlpha).reverse⟩

/-- ASCII lower-casing of one character (Go `strings.ToLower`, restricted
to the ASCII range that can occur in unit suffixes and format names). -/
def asciiLower (c : Char) : Char :=
  if c.isUpper then Char.ofNat (c.toNat + 32) else c

/-- Go `strings.ToLower` (ASCII-faithful). -/
def strToLower (s : String) : String :=
  ⟨s.data.map asciiLower⟩

/-- Go `len(s)` (byte length; character count coincides for the ASCII
inputs involved). -/
def strLen (s : String) : ℕ :=
  s.data.length

/-- Go slicing `s[n:]`. -/
def strDrop (s : String) (n : ℕ) : String :=
  ⟨s.data.drop n⟩

/-- Go slicing `s[0:n]`. -/
def strTake (s : String) (n : ℕ) : String :=
  ⟨s.data.take n⟩

/-- `stringToInch` (conversion_options.go).  Faithful to the Go body,
including its quirk: when the two-character suffix is not in `UnitToPixels`,
the comma-ok map read leaves `unitPixels` at its zero value `0` — the
subsequent `unit = "px"` assignment never re-reads the table — so the parsed
value is multiplied by `0`.  (Go slices bytes; characters coincide for the
ASCII inputs involved.) -/
def stringToInch (raw : String) : Except ResolveError ℚ :=
  if strLen raw < 2 then .error .invalidUnitErr
  else
    let unit := strToLower (strDrop raw (strLen raw - 2))
    let (unitPixels, valueText) : ℚ × String :=
      match unitToPixels unit with
      | some p => (p, strTake raw (strLen raw - 2))
      | none => (0, raw)
    let valueText := stripTrailingLetters valueText
    match parseDecimal valueText with
    | none => .error (.numErr valueText)
    | some value => .ok (pixelToInch (qMul value unitPixels))

/-- `parseUnit` (conversion_options.go): a bare number is pixels and is
divided by 96 (no rounding); a string goes through `stringToInch` with its
error wrapped into a `ParseError`; any other type is a `ParseError` whose
`Value` is the zero-value string left by the failed type assertion. -/
def parseUnit (m : JMap) (key : String) (dflt : ℚ) : Except ResolveError ℚ :=
  match mapGet m key with
  | none => .ok dflt
  | some (.num fval) => .ok (qDiv fval 96)
  | some (.str sval) =>
    match stringToInch sval with
    | .ok i => .ok i
    | .error _ => .error (.parseErr key (some (.str sval)))
  | some _ => .error (.parseErr key (some (.str "")))

/-- Go `strings.Trim(s, " ")`: drop leading and trailing spaces. -/
def goTrimSpaces (s : String) : String :=
  ⟨((s.data.dropWhile (· = ' ')).reverse.dropWhile (· = ' ')).reverse⟩

/-- Go `strings.Split(s, " ")` on a list of characters: split around every
space; the empty input yields one empty field, so the result is never `[]`. -/
def splitSpacesAux : List Char → List (List Char)
  | [] => [[]]
  | c :: rest =>
    if c = ' ' then [] :: splitSpacesAux rest
    else
      match splitSpacesAux rest with
      | t :: ts => (c :: t) :: ts
      | [] => [[c]]

/-- Go `strings.Split(s, " ")`. -/
def splitSpaces (s : String) : List String :=
  (splitSpacesAux s.data).map (fun cs => ⟨cs⟩)

/-- The four resolved margins, in inches, in the Go return order
`(marginTop, marginRight, marginBottom, marginLeft)`. -/
structure Margins where
  top : ℚ
  right : ℚ
  bottom : ℚ
  left : ℚ
deriving Repr, DecidableEq

/-- `parseMarginsFrom` (conversion_options.go): CSS-shorthand expansion of a
space-separated margin string; each token goes through `stringToInch`.
A failing token returns `(0,0,0,0)` with the raw `stringToInch` error. -/
def parseMarginsFrom (raw : String) : Margins × Option ResolveError :=
  match splitSpaces (goTrimSpaces raw) with
  | [] => (⟨0, 0, 0, 0⟩, some (.parseErr "margin" (some (.str raw))))
  | v0 :: rest0 =>
    match stringToInch v0 with
    | .error e => (⟨0, 0, 0, 0⟩, some e)
    | .ok mt =>
      match rest0 with
      | [] => (⟨mt, mt, mt, mt⟩, none)
      | v1 :: rest1 =>
        match stringToInch v1 with
        | .error e => (⟨0, 0, 0, 0⟩, some e)
        | .ok mr =>
          match rest1 with
          | [] => (⟨mt, mr, mt, mr⟩, none)
          | v2 :: rest2 =>
            match stringToInch v2 with
            | .error e => (⟨0, 0, 0, 0⟩, some e)
            | .ok mb =>
              match rest2 with
              | [] => (⟨mt, mr, mb, mr⟩, none)
              | v3 :: _ =>
                match stringToInch v3 with
                | .error e => (⟨0, 0, 0, 0⟩, some e)
                | .ok ml => (⟨mt, mr, mb, ml⟩, none)

/-- Rule (3) of `parseMargins` (conversion_options.go): the four individual
`marginTop/Right/Bottom/Left` fields, each unit-parsed with default `0.4`;
on error the Go multi-return carries the values parsed so far (a failed
`parseUnit` returns `0`) with the remaining sides at their zero values. -/
def parseMarginsSides (m : JMap) : Margins × Option ResolveError :=
  match parseUnit m "marginTop" (mkRat 2 5) with
  | .error e => (⟨0, 0, 0, 0⟩, some e)
  | .ok mt =>
    match parseUnit m "marginRight" (mkRat 2 5) with
    | .error e => (⟨mt, 0, 0, 0⟩, some e)
    | .ok mr =>
      match parseUnit m "marginBottom" (mkRat 2 5) with
      | .error e => (⟨mt, mr, 0, 0⟩, some e)
      | .ok mb =>
        match parseUnit m "marginLeft" (mkRat 2 5) with
        | .error e => (⟨mt, mr, mb, 0⟩, some e)
        | .ok ml => (⟨mt, mr, mb, ml⟩, none)

/-- Rule (2) of `parseMargins`: a non-empty string `margin` is CSS-shorthand;
otherwise fall through to the individual fields. -/
def parseMarginsAfter1 (m : JMap) : Margins × Option ResolveError :=
  match parseString m "margin" "" with
  | .ok s => if s ≠ "" then parseMarginsFrom s else parseMarginsSides m
  | .error _ => parseMarginsSides m

/-- `parseMargins` (conversion_options.go).  Rule (1): a numeric `margin`
(read with sentinel default `-1`) strictly greater than `-1` applies
`pixelToInch` uniformly; otherwise rules (2) and (3) follow. -/
def parseMargins (m : JMap) : Margins × Option ResolveError :=
  match parseFloat64 m "margin" (-1) with
  | .ok margin =>
    if margin > -1 then
      let mm := pixelToInch margin
      (⟨mm, mm, mm, mm⟩, none)
    else parseMarginsAfter1 m
  | .error _ => parseMarginsAfter1 m

/-- The zero-nudge of `parseMarginsFix`: a side equal to `0` becomes
`0.00000001`. -/
def marginFix (v : ℚ) : ℚ :=
  if v = 0 then mkRat 1 100000000 else v

/-- `parseMarginsFix` (conversion_options.go): on success every side equal
to exactly `0` is replaced by `1e-8`; on error the partial values and the
error pass through unchanged. -/
def parseMarginsFix (m : JMap) : Margins × Option ResolveError :=
  match parseMargins m with
  | (v, some e) => (v, some e)
  | (v, none) => (⟨marginFix v.top, marginFix v.right, marginFix v.bottom, marginFix v.left⟩, none)

/-- `WatermarkConfig` (conversion_options.go). -/
structure WatermarkConfig where
  Query : String
  OnTop : Bool
  Pages : List String

/-- `ConversionOptions` (conversion_options.go), with the fields of the
embedded `page.PrintToPDFParams` inlined (`Scale` … `PreferCSSPageSize`).
Durations are `int64` nanosecond counts, modelled by `ℤ`; the Go `Media`
string type is modelled by `String`. -/
structure ConversionOptions where
  HTML : String
  URL : String
  Landscape : Bool
  DisplayHeaderFooter : Bool
  PrintBackground : Bool
  Scale : ℚ
  PaperWidth : ℚ
  PaperHeight : ℚ
  MarginTop : ℚ
  MarginBottom : ℚ
  MarginLeft : ℚ
  MarginRight : ℚ
  PageRanges : String
  HeaderTemplate : String
  FooterTemplate : String
  PreferCSSPageSize : Bool
  ViewportWidth : ℤ
  ViewportHeight : ℤ
  BlockAds : Bool
  Selector : String
  WaitForSelector : String
  WaitForSelectorTimeout : ℤ
  WaitUntil : String
  WaitUntilTimeout : ℤ
  Delay : ℤ
  Timeout : ℤ
  Headers : JMap
  EmulateMedia : String
  OwnerPassword : String
  UserPassword : String
  Watermark : Option WatermarkConfig

/-- `NewConversionOptions` (conversion_options.go): the default options. -/
def NewConversionOptions : ConversionOptions where
  HTML := ""
  URL := ""
  Landscape := false
  DisplayHeaderFooter := false
  PrintBackground := true
  Scale := 1
  PaperWidth := mkRat 17 2
  PaperHeight := 11
  MarginTop := mkRat 2 5
  MarginBottom := mkRat 2 5
  MarginLeft := mkRat 2 5
  MarginRight := mkRat 2 5
  PageRanges := ""
  HeaderTemplate := ""
  FooterTemplate := ""
  PreferCSSPageSize := false
  ViewportWidth := 1920
  ViewportHeight := 1080
  BlockAds := false
  Selector := ""
  WaitForSelector := ""
  WaitForSelectorTimeout := 0
  WaitUntil := "load"
  WaitUntilTimeout := 0
  Delay := 0
  Timeout := 0
  Headers := []
  EmulateMedia := "screen"
  OwnerPassword := ""
  UserPassword := ""
  Watermark := none

/-- The scoped `if format, err := parseString(…); err == nil` block of
`NewConversionOptionsFromJSON`: a recognized named preset (case-insensitive)
overrides the explicit width/height; a `format` parse error is silently
ignored (the `err` is scoped to the `if`). -/
def resolvePaper (m : JMap) (paperWidth0 paperHeight0 : ℚ) : ℚ × ℚ :=
  match parseString m "format" "" with
  | .ok format =>
    match paperFormats (strToLower format) with
    | some f => f
    | none => (paperWidth0, paperHeight0)
  | .error _ => (paperWidth0, paperHeight0)

/-- `NewConversionOptionsFromJSON` (conversion_options.go), applied to an
already-decoded JSON object.  Every field error is checked and returned —
except the margin error: the Go code computes
`marginTop, …, err := parseMarginsFix(jsonMap)` and then immediately
overwrites `err` with the result of parsing `pageRanges` before any check,
so a margin-parse failure is silently dropped and the partial margin values
are used (hence only `(parseMarginsFix m).1` appears below). -/
def NewConversionOptionsFromJSON (m : JMap) : Except ResolveError ConversionOptions := do
  let html ← parseString m "html" ""
  let url ← parseString m "url" ""
  let landscape ← parseBool m "landscape" false
  let displayHeaderFooter ← parseBool m "displayHeaderFooter" false
  let printBackground ← parseBool m "printBackground" true
  let scale ← parseFloat64 m "scale" 1
  let paperWidth0 ← parseUnit m "paperWidth" (mkRat 17 2)
  let paperHeight0 ← parseUnit m "paperHeight" 11
  let paper := resolvePaper m paperWidth0 paperHeight0
  let margins := (parseMarginsFix m).1
  let pageRanges ← parseString m "pageRanges" ""
  let headerTemplate ← parseString m "headerTemplate" ""
  let footerTemplate ← parseString m "footerTemplate" ""
  let preferCSSPageSize ← parseBool m "preferCSSPageSize" false
  let viewportWidth ← parseInt64 m "viewportWidth" 1920
  let viewportHeight ← parseInt64 m "viewportHeight" 1080
  let blockAds ← parseBool m "blockAds" false
  let selector ← parseString m "selector" ""
  let waitForSelector ← parseString m "waitForSelector" ""
  let waitForSelectorTimeout ← parseDuration m "waitForSelectorTimeout" 0
  let waitUntil ← parseStringOnly m "waitUntil" "load" ["load", "dom"]
  let waitUntilTimeout ← parseDuration m "waitUntilTimeout" 0
  let delay ← parseDuration m "delay" 0
  let timeout ← parseDuration m "timeout" 0
  let headers ← parseHeaders m
  let emulateMedia ← parseEmulateMedia m "screen"
  let ownerPassword ← parseString m "ownerPassword" ""
  let userPassword ← parseString m "userPassword" ""
  pure
    { HTML := html
      URL := url
      Landscape := landscape
      DisplayHeaderFooter := displayHeaderFooter
      PrintBackground := printBackground
      Scale := scale
      PaperWidth := paper.1
      PaperHeight := paper.2
      MarginTop := margins.top
      MarginBottom := margins.bottom
      MarginLeft := margins.left
      MarginRight := margins.right
      PageRanges := pageRanges
      HeaderTemplate := headerTemplate
      FooterTemplate := footerTemplate
      PreferCSSPageSize := preferCSSPageSize
      ViewportWidth := viewportWidth
      ViewportHeight := viewportHeight
      BlockAds := blockAds
      Selector := selector
      WaitForSelector := waitForSelector
      WaitForSelectorTimeout := waitForSelectorTimeout
      WaitUntil := waitUntil
      WaitUntilTimeout := waitUntilTimeout
      Delay := delay
      Timeout := timeout
      Headers := headers
      EmulateMedia := emulateMedia
      OwnerPassword := ownerPassword
      UserPassword := userPassword
      Watermark := none }

/-- `true` iff the resolver succeeded (Go: returned a nil error). -/
def resolveOk (m : JMap) : Bool :=
  match NewConversionOptionsFromJSON m with
  | .ok _ => true
  | .error _ => false

/-- `MergeOptions` (merge_options.go). -/
structure MergeOptions where
  Documents : List ConversionOptions
  OwnerPassword : String
  UserPassword : String
  Watermark : Option WatermarkConfig

/-- One element of the `documents` array in `NewMergeOptionsFromJSON`:
Go re-marshals the element and feeds it to `NewConversionOptionsFromJSONString`,
whose decode into `map[string]interface{}` fails with `ErrInvalidJSON`
unless the element is a JSON object. -/
def conversionOptionsFromJValue (v : JValue) : Except ResolveError ConversionOptions :=
  match v with
  | .obj mm => NewConversionOptionsFromJSON mm
  | _ => .error .invalidJSON

/-- The per-document body of the `documents` loop in `NewMergeOptionsFromJSON`
(merge_options.go): resolve the element, then clear `OwnerPassword` and
`UserPassword` before it is appended. -/
def mergeResolveDocument (v : JValue) : Except ResolveError ConversionOptions := do
  let o ← conversionOptionsFromJValue v
  pure { o with OwnerPassword := "", UserPassword := "" }

/-- The `documents` loop of `NewMergeOptionsFromJSON` (merge_options.go):
resolve each element in order, stopping at the first failing document and
propagating its specific error. -/
def mergeResolveDocuments : List JValue → Except ResolveError (List ConversionOptions)
  | [] => .ok []
  | v :: rest => do
    let o ← mergeResolveDocument v
    let os ← mergeResolveDocuments rest
    pure (o :: os)

/-- `NewMergeOptionsFromJSON` (merge_options.go), applied to an
already-decoded JSON object. -/
def NewMergeOptionsFromJSON (m : JMap) : Except ResolveError MergeOptions :=
  match mapGet m "documents" with
  | none => .error (.parseErr "documents" none)
  | some data =>
    match data with
    | .arr docdata => do
      let docs ← mergeResolveDocuments docdata
      let ownerPassword ← parseString m "ownerPassword" ""
      let userPassword ← parseString m "userPassword" ""
      pure { Documents := docs, OwnerPassword := ownerPassword,
             UserPassword := userPassword, Watermark := none }
    | _ => .error (.parseErr "documents" (some data))

/-- The prologue of `Merge` (converter.go): before any render task is
launched, `OwnerPassword` and `UserPassword` are cleared on every contained
`ConversionOptions`. -/
def mergeClearPasswords (mo : MergeOptions) : MergeOptions :=
  { mo with Documents :=
      mo.Documents.map (fun d => { d with OwnerPassword := "", UserPassword := "" }) }

/-- The two dispatch targets of `Convert` (converter.go). -/
inductive ConvertPath where
  | url : ConvertPath
  | html : ConvertPath
deriving Repr, DecidableEq

/-- `Convert` (converter.go): `if options.URL != "" { return ConvertURL(…) }
return ConvertHTML(…)` — the URL branch is taken exactly when `URL` is
non-empty; the HTML text plays no part in the dispatch. -/
def convertPath (o : ConversionOptions) : ConvertPath :=
  if o.URL ≠ "" then .url else .html

/-- The context used for the `waitForSelector` wait in `afterNavigation`
(converter.go): either a plain cancellable child context (bounded only by
the session deadline) or a child context carrying its own deadline (in
nanoseconds). -/
inductive WaitCtx where
  | cancelOnly : WaitCtx
  | withDeadline : ℤ → WaitCtx
deriving Repr, DecidableEq

/-- The `waitForSelector` branch of `afterNavigation` (converter.go):
`none` when `WaitForSelector` is empty (no wait at all); otherwise, if
`WaitForSelectorTimeout > 0` the code builds `context.WithCancel(ctx)`, and
if it is `0` the code builds
`context.WithTimeout(ctx, time.Duration(options.WaitForSelectorTimeout)*time.Millisecond)`
— re-scaling the already-nanosecond duration by another factor of 10^6. -/
def selectorWaitCtx (o : ConversionOptions) : Option WaitCtx :=
  if o.WaitForSelector = "" then none
  else if o.WaitForSelectorTimeout > 0 then some .cancelOnly
  else some (.withDeadline (o.WaitForSelectorTimeout * 1000000))

/-- An event read by the fan-in loop of `mergeDocs` (converter.go): a value
taken from the result channel `cres` (an index-tagged buffer, sent by
`forMerge`) or from the error channel `cerr`.  A schedule — the order in
which the loop's `select` consumes the queued channel values — is a list of
these events; it is arbitrary up to each channel's FIFO order, which models
Go's nondeterministic `select` among ready channels. -/
inductive MEvent (β ε : Type) where
  | res : ℕ → β → MEvent β ε
  | err : ε → MEvent β ε
deriving Repr, DecidableEq

/-- Outcome of `mergeDocs` (converter.go): `merged bufs` means the loop
collected `len(bufs)` results and invoked the PDF-engine merge capability
(`api.Merge`) on the buffers in slot order; `failed e` means an error was
read from `cerr` and returned with no merge; `timedOut` models the
`ctx.Done()` branch (`ErrTimeout`). -/
inductive MergeOutcome (β ε : Type) where
  | merged : List (Option β) → MergeOutcome β ε
  | failed : ε → MergeOutcome β ε
  | timedOut : MergeOutcome β ε
deriving Repr, DecidableEq

/-- The fan-in loop of `mergeDocs` (converter.go): `slots` is `bufs`
(`make([]*bytes.Buffer, cap(cres))`, all nil), `c` the collected count.
While `c != len(bufs)` the loop consumes the next scheduled event: an error
returns immediately; a result is stored at its own index (`bufs[res.index] =
res.buf`) and counted.  An exhausted schedule with the count short models
blocking until `ctx.Done()` fires. -/
def mergeLoop {β ε : Type} (events : List (MEvent β ε)) (slots : List (Option β)) (c : ℕ) :
    MergeOutcome β ε :=
  if c = slots.length then .merged slots
  else
    match events with
    | [] => .timedOut
    | .err e :: _ => .failed e
    | .res i b :: rest => mergeLoop rest (slots.set i (some b)) (c + 1)

/-- `mergeDocs` (converter.go) for `n` documents under a given channel
schedule. -/
def mergeDocs {β ε : Type} (n : ℕ) (events : List (MEvent β ε)) : MergeOutcome β ε :=
  mergeLoop events (List.replicate n none) 0

/-! ## Helper lemmas -/

theorem exceptBind_ok {ε α β : Type} {e : Except ε α} {f : α → Except ε β} {b : β}
    (h : e >>= f = .ok b) : ∃ a, e = .ok a ∧ f a = .ok b := by
  cases e with
  | ok a => exact ⟨a, rfl, h⟩
  | error ev => simp [Bind.bind, Except.bind] at h

theorem marginFix_ne_zero (q : ℚ) : marginFix q ≠ 0 := by
  unfold marginFix
  split
  · norm_num
  · assumption

theorem qAdd_eq (a b : ℚ) : qAdd a b = a + b := by
  unfold qAdd
  rw [Rat.mkRat_eq_div]
  have ha : (a.den : ℚ) ≠ 0 := by exact_mod_cast a.den_ne_zero
  have hb : (b.den : ℚ) ≠ 0 := by exact_mod_cast b.den_ne_zero
  have hA : (a.num : ℚ) = a * a.den := (div_eq_iff ha).mp (Rat.num_div_den a)
  have hB : (b.num : ℚ) = b * b.den := (div_eq_iff hb).mp (Rat.num_div_den b)
  rw [div_eq_iff (by push_cast; exact mul_ne_zero ha hb)]
  push_cast
  rw [hA, hB]
  ring

theorem qSub_eq (a b : ℚ) : qSub a b = a - b := by
  unfold qSub
  rw [Rat.mkRat_eq_div]
  have ha : (a.den : ℚ) ≠ 0 := by exact_mod_cast a.den_ne_zero
  have hb : (b.den : ℚ) ≠ 0 := by exact_mod_cast b.den_ne_zero
  have hA : (a.num : ℚ) = a * a.den := (div_eq_iff ha).mp (Rat.num_div_den a)
  have hB : (b.num : ℚ) = b * b.den := (div_eq_iff hb).mp (Rat.num_div_den b)
  rw [div_eq_iff (by push_cast; exact mul_ne_zero ha hb)]
  push_cast
  rw [hA, hB]
  ring

theorem qMul_eq (a b : ℚ) : qMul a b = a * b := by
  unfold qMul
  rw [Rat.mkRat_eq_div]
  have ha : (a.den : ℚ) ≠ 0 := by exact_mod_cast a.den_ne_zero
  have hb : (b.den : ℚ) ≠ 0 := by exact_mod_cast b.den_ne_zero
  have hA : (a.num : ℚ) = a * a.den := (div_eq_iff ha).mp (Rat.num_div_den a)
  have hB : (b.num : ℚ) = b * b.den := (div_eq_iff hb).mp (Rat.num_div_den b)
  rw [div_eq_iff (by push_cast; exact mul_ne_zero ha hb)]
  push_cast
  rw [hA, hB]
  ring

theorem qInv_eq (b : ℚ) : qInv b = b⁻¹ := by
  unfold qInv
  rcases lt_trichotomy b.num 0 with hneg | hzero | hpos
  · rw [if_pos hneg, Rat.mkRat_eq_div, Rat.inv_def', Rat.divInt_eq_div]
    push_cast [Int.cast_natAbs]
    rw [abs_of_neg (show (b.num : ℚ) < 0 by exact_mod_cast hneg)]
    rw [neg_div_neg_eq]
  · rw [if_neg (by omega), Rat.mkRat_eq_div]
    have hb : b = 0 := Rat.num_eq_zero.mp hzero
    rw [hzero]
    simp [hb]
  · rw [if_neg (by omega), Rat.mkRat_eq_div, Rat.inv_def', Rat.divInt_eq_div]
    have hcast : (b.num.toNat : ℤ) = b.num := Int.toNat_of_nonneg hpos.le
    congr 1
    exact_mod_cast congrArg (fun z : ℤ => (z : ℚ)) hcast

theorem qDiv_eq (a b : ℚ) : qDiv a b = a / b := by
  unfold qDiv
  rw [qMul_eq, qInv_eq, div_eq_mul_inv]

theorem qOfInt_eq (n : ℤ) : qOfInt n = (n : ℚ) := by
  unfold qOfInt
  rw [Rat.mkRat_eq_div]
  norm_num

theorem mkRat_one_two : (mkRat 1 2 : ℚ) = 1 / 2 := by
  rw [Rat.mkRat_eq_div]
  norm_num

/-- `goRound` with the ordinary `ℚ` operations. -/
theorem goRound_eq (q : ℚ) :
    goRound q = if 0 ≤ q then ⌊q + 1 / 2⌋ else ⌈q - 1 / 2⌉ := by
  unfold goRound
  rw [qAdd_eq, qSub_eq, mkRat_one_two]

/-- `pixelToInch` with the ordinary `ℚ` operations:
`(round (pixel * 100 / 96) : ℚ) / 100`. -/
theorem pixelToInch_eq (pixel : ℚ) :
    pixelToInch pixel = (goRound (pixel * 100 / 96) : ℚ) / 100 := by
  unfold pixelToInch
  rw [qMul_eq, qDiv_eq, qDiv_eq, qOfInt_eq]

theorem pixelToInch_zero : pixelToInch 0 = 0 := by
  rw [pixelToInch_eq]
  norm_num [goRound_eq]

/-! ## C10 — Convert dispatch: URL wins, HTML path iff URL empty -/

/-- C10: for every `ConversionOptions` in which `URL` is non-empty, `Convert`
performs the URL conversion (the HTML text is ignored by the dispatch), and
the HTML path is taken exactly when `URL` is the empty string — including
when `HTML` is also empty. -/
theorem convert_dispatch_url_over_html (o : ConversionOptions) :
    (o.URL ≠ "" → convertPath o = ConvertPath.url) ∧
    (convertPath o = ConvertPath.html ↔ o.URL = "") := by
  unfold convertPath
  by_cases h : o.URL = "" <;> simp [h]

/-- Witness for C10: with both sources set the URL path is taken; with an
empty URL the HTML path is taken. -/
theorem convert_dispatch_url_over_html_witness :
    convertPath { NewConversionOptions with
      URL := "https://example.com", HTML := "<p>x</p>" } = ConvertPath.url ∧
    convertPath NewConversionOptions = ConvertPath.html :=
  ⟨(convert_dispatch_url_over_html _).1 (by decide),
   (convert_dispatch_url_over_html _).2.mpr rfl⟩

/-! ## C9 — waitForSelector timeout context (swapped branches) -/

/-- C9 (code bug): the claim says the selector wait receives a deadline of
exactly `waitForSelectorTimeout` when that timeout is positive and no
additional deadline when it is `0`.  The code has the branches swapped: with
`waitForSelectorTimeout = 3000ms` (3·10^9 ns) `afterNavigation` builds
`context.WithCancel` — no additional deadline — and with the timeout at `0`
it builds `context.WithTimeout(ctx, 0)`, an already-expired deadline. -/
theorem selector_timeout_branches_swapped :
    selectorWaitCtx { NewConversionOptions with
      WaitForSelector := "#wait-selector",
      WaitForSelectorTimeout := 3000000000 } = some WaitCtx.cancelOnly ∧
    selectorWaitCtx { NewConversionOptions with
      WaitForSelector := "#wait-selector" } = some (WaitCtx.withDeadline 0) :=
  ⟨rfl, rfl⟩

/-! ## C7 — margin parse errors are silently dropped -/

/-- C7 (code bug): for the raw request `{"margin": "abcpx"}` the margin
shorthand fails to parse (`parseMarginsFix` reports an error), yet
`NewConversionOptionsFromJSON` succeeds: the error is overwritten by the
`pageRanges` parse before it is checked, so no `ParseError` reaches the
caller. -/
theorem margin_error_dropped :
    resolveOk [("margin", JValue.str "abcpx")] = true ∧
    (parseMarginsFix [("margin", JValue.str "abcpx")]).2.isSome = true :=
  ⟨rfl, rfl⟩

/-! ## C8 — zero margins nudged to 1e-8 on success, but zeros still leak -/

/-- C8 (code bug): when margin resolution succeeds, every side is non-zero
(a side computing to exactly `0` is replaced by `1e-8`); but because the
margin-parse error is dropped (see C7), the resolved options for
`{"margin": "abcpx"}` carry margins exactly `0`, contradicting the claim
that no resolved `ConversionSpec` ever carries a margin equal to `0`. -/
theorem margin_zero_nudge :
    (∀ (m : JMap) (v : Margins), parseMarginsFix m = (v, none) →
      v.top ≠ 0 ∧ v.right ≠ 0 ∧ v.bottom ≠ 0 ∧ v.left ≠ 0) ∧
    Except.map (fun o => (o.MarginTop, o.MarginRight, o.MarginBottom, o.MarginLeft))
      (NewConversionOptionsFromJSON [("margin", JValue.str "abcpx")]) =
      .ok (0, 0, 0, 0) := by
  constructor
  · intro m v h
    unfold parseMarginsFix at h
    rcases hp : parseMargins m with ⟨w, e⟩
    rw [hp] at h
    cases e with
    | some e => simp at h
    | none =>
      obtain ⟨hv, -⟩ := Prod.mk.injEq .. ▸ h
      subst hv
      exact ⟨marginFix_ne_zero _, marginFix_ne_zero _,
             marginFix_ne_zero _, marginFix_ne_zero _⟩
  · rfl

/-- Witness for C8: the success-path half of `margin_zero_nudge` applied to
the empty request, whose margins resolve to the default `0.4`. -/
theorem margin_zero_nudge_witness :
    mkRat 2 5 ≠ 0 ∧ mkRat 2 5 ≠ 0 ∧ mkRat 2 5 ≠ 0 ∧ mkRat 2 5 ≠ 0 :=
  margin_zero_nudge.1 [] ⟨mkRat 2 5, mkRat 2 5, mkRat 2 5, mkRat 2 5⟩ rfl

/-! ## C4 — no NoSource failure: a sourceless request resolves and renders -/

/-- C4 counterexample: the claim says resolution (or the conversion entry
point) fails with `NoSource` when both `html` and `url` are absent.  In the
code `ErrNoSource` is declared but never returned: the empty request
resolves successfully to options with `HTML = ""` and `URL = ""`, and
`Convert` dispatches to the HTML path (rendering the empty document) — the
code's own `TestConvertHTML` asserts this nil error. -/
theorem no_source_counterexample :
    resolveOk [] = true ∧
    Except.map (fun o => (o.HTML, o.URL, convertPath o)) (NewConversionOptionsFromJSON []) =
      .ok ("", "", ConvertPath.html) :=
  ⟨rfl, rfl⟩

/-- C4 amended: a raw request in which both `html` and `url` are absent or
empty strings does **not** fail with `NoSource` — whenever resolution
succeeds it produces options with `HTML = ""` and `URL = ""`, and `Convert`
takes the HTML path on them. -/
theorem no_source_resolves_html_path (m : JMap) (o : ConversionOptions)
    (h : NewConversionOptionsFromJSON m = .ok o)
    (hh : mapGet m "html" = none ∨ mapGet m "html" = some (.str ""))
    (hu : mapGet m "url" = none ∨ mapGet m "url" = some (.str "")) :
    o.HTML = "" ∧ o.URL = "" ∧ convertPath o = ConvertPath.html := by
  have hhtml : parseString m "html" "" = Except.ok "" := by
    rcases hh with h1 | h1 <;> simp [parseString, h1]
  have hurl : parseString m "url" "" = Except.ok "" := by
    rcases hu with h1 | h1 <;> simp [parseString, h1]
  unfold NewConversionOptionsFromJSON at h
  obtain ⟨html, ph, h⟩ := exceptBind_ok h
  rw [hhtml] at ph
  injection ph with ph
  subst ph
  obtain ⟨url, pu, h⟩ := exceptBind_ok h
  rw [hurl] at pu
  injection pu with pu
  subst pu
  iterate 24 (obtain ⟨_, _, h⟩ := exceptBind_ok h)
  simp only [pure, Except.pure, Except.ok.injEq] at h
  subst h
  exact ⟨rfl, rfl, rfl⟩

/-- Witness for C4's amended theorem at the empty request. -/
theorem no_source_resolves_html_path_witness :
    NewConversionOptions.HTML = "" ∧ NewConversionOptions.URL = "" ∧
      convertPath NewConversionOptions = ConvertPath.html :=
  no_source_resolves_html_path [] NewConversionOptions rfl (.inl rfl) (.inl rfl)

/-! ## C5 — unit parsing -/

/-- C5 counterexample: the claim's rounding rule applied to the bare number
`100` would give `round(100/96·100)/100 = 1.04 = 26/25` inches, but the code
divides without rounding: `100/96 = 25/24`.  And the claim's "unrecognized
suffix is treated as px" would make `"10pt"` equal `10` pixels
(`pixelToInch 10 = 1/10`), but the code yields `0` inches: the comma-ok map
read leaves the unit ratio at `0`. -/
theorem parse_unit_counterexample :
    (parseUnit [("paperWidth", JValue.num 100)] "paperWidth" 0).toOption =
      some (mkRat 25 24) ∧
    mkRat 25 24 ≠ mkRat 26 25 ∧
    (stringToInch "10pt").toOption = some 0 ∧
    pixelToInch 10 ≠ 0 := by
  refine ⟨rfl, by decide, rfl, by decide⟩

/-- C5 amended: a bare JSON number is interpreted as pixels and divided by
96 **without** rounding; a string is handed to `stringToInch`, which matches
the final two characters case-insensitively against {px, in, cm, mm}
(ratios 1, 96, 37.8, 3.78) and converts via `round(pixels·100/96)/100`;
a recognized-suffix match multiplies by the table ratio, while an
unrecognized suffix multiplies by the zero value left by the failed table
read — producing `0` inches, not a px interpretation.  The claim's two
round-trip examples do hold: `parseUnit("96px") = 1.0` and
`parseUnit(192) = 2.0`. -/
theorem parse_unit_semantics :
    (∀ (m : JMap) (key : String) (dflt q : ℚ), mapGet m key = some (JValue.num q) →
      parseUnit m key dflt = .ok (q / 96)) ∧
    (∀ (m : JMap) (key : String) (dflt : ℚ) (s : String) (v : ℚ),
      mapGet m key = some (JValue.str s) → stringToInch s = .ok v →
      parseUnit m key dflt = .ok v) ∧
    (∀ (body u : String) (p v : ℚ), strLen u = 2 →
      unitToPixels (strToLower u) = some p →
      parseDecimal (stripTrailingLetters body) = some v →
      stringToInch (body ++ u) = .ok (pixelToInch (v * p))) ∧
    (∀ (raw : String) (v : ℚ), 2 ≤ strLen raw →
      unitToPixels (strToLower (strDrop raw (strLen raw - 2))) = none →
      parseDecimal (stripTrailingLetters raw) = some v →
      stringToInch raw = .ok 0) ∧
    (parseUnit [("w", JValue.str "96px")] "w" 0).toOption = some 1 ∧
    (parseUnit [("w", JValue.num 192)] "w" 0).toOption = some 2 ∧
    (stringToInch "100px").toOption = some (mkRat 26 25) := by
  refine ⟨?_, ?_, ?_, ?_, rfl, rfl, rfl⟩
  · intro m key dflt q h
    simp [parseUnit, h, qDiv_eq]
  · intro m key dflt s v h1 h2
    simp [parseUnit, h1, h2]
  · intro body u p v hu hp hv
    have hlen : strLen (body ++ u) = strLen body + 2 := by
      simp [strLen] at *
      omega
    have hdrop : strDrop (body ++ u) (strLen body) = u := by
      unfold strDrop strLen
      show String.mk ((body.data ++ u.data).drop body.data.length) = u
      rw [List.drop_left]
    have htake : strTake (body ++ u) (strLen body) = body := by
      unfold strTake strLen
      show String.mk ((body.data ++ u.data).take body.data.length) = body
      rw [List.take_left]
    unfold stringToInch
    rw [hlen, if_neg (by omega), Nat.add_sub_cancel, hdrop, htake]
    dsimp only
    rw [hp]
    dsimp only
    rw [hv]
    dsimp only
    rw [qMul_eq]
  · intro raw v hlen hnone hv
    unfold stringToInch
    rw [if_neg (by omega)]
    dsimp only
    rw [hnone]
    dsimp only
    rw [hv]
    dsimp only
    rw [qMul_eq, mul_zero, pixelToInch_zero]

/-- Witness for C5's amended theorem: each conditional conjunct applied at a
concrete input. -/
theorem parse_unit_semantics_witness :
    parseUnit [("k", JValue.num 100)] "k" 0 = .ok ((100 : ℚ) / 96) ∧
    parseUnit [("k", JValue.str "1in")] "k" 0 = .ok 1 ∧
    stringToInch ("2" ++ "IN") = .ok (pixelToInch (2 * 96)) ∧
    stringToInch "10pt" = .ok 0 :=
  ⟨parse_unit_semantics.1 _ "k" 0 100 rfl,
   parse_unit_semantics.2.1 _ "k" 0 "1in" 1 rfl rfl,
   parse_unit_semantics.2.2.1 "2" "IN" 96 2 rfl rfl rfl,
   parse_unit_semantics.2.2.2.1 "10pt" 10 (by decide) rfl rfl⟩

/-! ## C6 — margin precedence and CSS shorthand -/

/-- C6: margin resolution precedence, first matching rule wins.
(1) a numeric `margin` applies `pixelToInch` uniformly to all four sides
(the code reads the number with sentinel default `-1`, so the rule matches
exactly when the value exceeds `-1`; a numeric value `≤ -1` falls through,
and — the string read then failing on a number — lands on the individual
fields); (2) a non-empty string `margin` is CSS shorthand: 1 token sets all
four sides, 2 tokens set top/bottom := token₀ and left/right := token₁,
3 tokens set top := token₀, left/right := token₁, bottom := token₂, and
4 tokens set top, right, bottom, left in that order, every token unit-parsed
by `stringToInch`; (3) otherwise the four individual fields are unit-parsed
with default `0.4` (= 2/5) inches. -/
theorem margin_precedence_and_shorthand :
    (∀ (m : JMap) (q : ℚ), mapGet m "margin" = some (JValue.num q) → q > -1 →
      parseMargins m =
        (⟨pixelToInch q, pixelToInch q, pixelToInch q, pixelToInch q⟩, none)) ∧
    (∀ (m : JMap) (q : ℚ), mapGet m "margin" = some (JValue.num q) → q ≤ -1 →
      parseMargins m = parseMarginsSides m) ∧
    (∀ (m : JMap) (s : String), mapGet m "margin" = some (JValue.str s) → s ≠ "" →
      parseMargins m = parseMarginsFrom s) ∧
    (∀ (raw t0 : String) (a : ℚ),
      splitSpaces (goTrimSpaces raw) = [t0] → stringToInch t0 = .ok a →
      parseMarginsFrom raw = (⟨a, a, a, a⟩, none)) ∧
    (∀ (raw t0 t1 : String) (a b : ℚ),
      splitSpaces (goTrimSpaces raw) = [t0, t1] →
      stringToInch t0 = .ok a → stringToInch t1 = .ok b →
      parseMarginsFrom raw = (⟨a, b, a, b⟩, none)) ∧
    (∀ (raw t0 t1 t2 : String) (a b c : ℚ),
      splitSpaces (goTrimSpaces raw) = [t0, t1, t2] →
      stringToInch t0 = .ok a → stringToInch t1 = .ok b → stringToInch t2 = .ok c →
      parseMarginsFrom raw = (⟨a, b, c, b⟩, none)) ∧
    (∀ (raw t0 t1 t2 t3 : String) (a b c d : ℚ),
      splitSpaces (goTrimSpaces raw) = [t0, t1, t2, t3] →
      stringToInch t0 = .ok a → stringToInch t1 = .ok b →
      stringToInch t2 = .ok c → stringToInch t3 = .ok d →
      parseMarginsFrom raw = (⟨a, b, c, d⟩, none)) ∧
    (∀ (m : JMap), mapGet m "margin" = none → parseMargins m = parseMarginsSides m) ∧
    (∀ (m : JMap) (a b c d : ℚ),
      parseUnit m "marginTop" (mkRat 2 5) = .ok a →
      parseUnit m "marginRight" (mkRat 2 5) = .ok b →
      parseUnit m "marginBottom" (mkRat 2 5) = .ok c →
      parseUnit m "marginLeft" (mkRat 2 5) = .ok d →
      parseMarginsSides m = (⟨a, b, c, d⟩, none)) := by
  refine ⟨?_, ?_, ?_, ?_, ?_, ?_, ?_, ?_, ?_⟩
  · intro m q h hq
    unfold parseMargins
    simp [parseFloat64, h, hq]
  · intro m q h hq
    unfold parseMargins parseMarginsAfter1
    simp [parseFloat64, parseString, h, not_lt.mpr hq]
  · intro m s h hs
    unfold parseMargins parseMarginsAfter1
    simp [parseFloat64, parseString, h, hs]
  · intro raw t0 a hsplit h0
    unfold parseMarginsFrom
    rw [hsplit]
    dsimp only
    rw [h0]
  · intro raw t0 t1 a b hsplit h0 h1
    unfold parseMarginsFrom
    rw [hsplit]
    dsimp only
    rw [h0]
    dsimp only
    rw [h1]
  · intro raw t0 t1 t2 a b c hsplit h0 h1 h2
    unfold parseMarginsFrom
    rw [hsplit]
    dsimp only
    rw [h0]
    dsimp only
    rw [h1]
    dsimp only
    rw [h2]
  · intro raw t0 t1 t2 t3 a b c d hsplit h0 h1 h2 h3
    unfold parseMarginsFrom
    rw [hsplit]
    dsimp only
    rw [h0]
    dsimp only
    rw [h1]
    dsimp only
    rw [h2]
    dsimp only
    rw [h3]
  · intro m h
    unfold parseMargins parseMarginsAfter1
    simp [parseFloat64, parseString, h]
  · intro m a b c d h0 h1 h2 h3
    unfold parseMarginsSides
    rw [h0]
    dsimp only
    rw [h1]
    dsimp only
    rw [h2]
    dsimp only
    rw [h3]

/-- Witness for C6: every conjunct applied at a concrete request. -/
theorem margin_precedence_and_shorthand_witness :
    parseMargins [("margin", JValue.num 10)] =
      (⟨mkRat 1 10, mkRat 1 10, mkRat 1 10, mkRat 1 10⟩, none) ∧
    parseMargins [("margin", JValue.num (-5))] =
      parseMarginsSides [("margin", JValue.num (-5))] ∧
    parseMargins [("margin", JValue.str "10px 20px")] =
      parseMarginsFrom "10px 20px" ∧
    parseMarginsFrom "96px" = (⟨1, 1, 1, 1⟩, none) ∧
    parseMarginsFrom "10px 20px" =
      (⟨mkRat 1 10, mkRat 21 100, mkRat 1 10, mkRat 21 100⟩, none) ∧
    parseMarginsFrom "1in 2in 3in" = (⟨1, 2, 3, 2⟩, none) ∧
    parseMarginsFrom "1in 2in 3in 4in" = (⟨1, 2, 3, 4⟩, none) ∧
    parseMargins [] = parseMarginsSides [] ∧
    parseMarginsSides [] = (⟨mkRat 2 5, mkRat 2 5, mkRat 2 5, mkRat 2 5⟩, none) := by
  have t := margin_precedence_and_shorthand
  refine ⟨?_, ?_, ?_, ?_, ?_, ?_, ?_, ?_, ?_⟩
  · have h := t.1 [("margin", JValue.num 10)] 10 rfl (by norm_num)
    rw [h]
    have : pixelToInch 10 = mkRat 1 10 := by decide
    rw [this]
  · exact t.2.1 [("margin", JValue.num (-5))] (-5) rfl (by norm_num)
  · exact t.2.2.1 [("margin", JValue.str "10px 20px")] "10px 20px" rfl (by decide)
  · exact t.2.2.2.1 "96px" "96px" 1 rfl rfl
  · exact t.2.2.2.2.1 "10px 20px" "10px" "20px" (mkRat 1 10) (mkRat 21 100) rfl rfl rfl
  · exact t.2.2.2.2.2.1 "1in 2in 3in" "1in" "2in" "3in" 1 2 3 rfl rfl rfl rfl
  · exact t.2.2.2.2.2.2.1 "1in 2in 3in 4in" "1in" "2in" "3in" "4in" 1 2 3 4 rfl rfl rfl rfl rfl
  · exact t.2.2.2.2.2.2.2.1 [] rfl
  · exact t.2.2.2.2.2.2.2.2 [] (mkRat 2 5) (mkRat 2 5) (mkRat 2 5) (mkRat 2 5) rfl rfl rfl rfl

/-! ## C3 — per-document passwords inside a merge are always cleared -/

theorem mergeResolveDocuments_passwords (l : List JValue) (docs : List ConversionOptions)
    (h : mergeResolveDocuments l = .ok docs) :
    ∀ d ∈ docs, d.OwnerPassword = "" ∧ d.UserPassword = "" := by
  induction l generalizing docs with
  | nil =>
    intro d hd
    simp only [mergeResolveDocuments] at h
    injection h with h
    subst h
    simp at hd
  | cons v rest ih =>
    intro d hd
    unfold mergeResolveDocuments at h
    obtain ⟨o, ho, h⟩ := exceptBind_ok h
    obtain ⟨os, hos, h⟩ := exceptBind_ok h
    simp only [pure, Except.pure, Except.ok.injEq] at h
    subst h
    rcases List.mem_cons.mp hd with rfl | hd'
    · unfold mergeResolveDocument at ho
      obtain ⟨o0, _, ho⟩ := exceptBind_ok ho
      simp only [pure, Except.pure, Except.ok.injEq] at ho
      subst ho
      exact ⟨rfl, rfl⟩
    · exact ih os hos d hd'

/-- C3: a document inside a merge is never individually encrypted — both
when a `MergeSpec` is resolved from JSON (`NewMergeOptionsFromJSON` clears
each contained document's passwords before appending it) and again when
`Merge` executes (its prologue clears them on every contained document
before any render task starts), every contained `ConversionOptions` has
`OwnerPassword = ""` and `UserPassword = ""`. -/
theorem merge_documents_passwords_cleared :
    (∀ (m : JMap) (mo : MergeOptions), NewMergeOptionsFromJSON m = .ok mo →
      ∀ d ∈ mo.Documents, d.OwnerPassword = "" ∧ d.UserPassword = "") ∧
    (∀ (mo : MergeOptions), ∀ d ∈ (mergeClearPasswords mo).Documents,
      d.OwnerPassword = "" ∧ d.UserPassword = "") := by
  constructor
  · intro m mo h
    unfold NewMergeOptionsFromJSON at h
    rcases hdoc : mapGet m "documents" with _ | data
    · rw [hdoc] at h
      simp at h
    · rw [hdoc] at h
      cases data with
      | arr docdata =>
        obtain ⟨docs, hdocs, h⟩ := exceptBind_ok h
        obtain ⟨opw, _, h⟩ := exceptBind_ok h
        obtain ⟨upw, _, h⟩ := exceptBind_ok h
        simp only [pure, Except.pure, Except.ok.injEq] at h
        subst h
        exact mergeResolveDocuments_passwords docdata docs hdocs
      | null => simp at h
      | bool b => simp at h
      | num q => simp at h
      | str s => simp at h
      | obj o => simp at h
  · intro mo d hd
    simp only [mergeClearPasswords, List.mem_map] at hd
    obtain ⟨d0, -, rfl⟩ := hd
    exact ⟨rfl, rfl⟩

/-- Witness for C3: a one-document merge request whose document carries
`ownerPassword = "x"` resolves with the password cleared, and the `Merge`
prologue clears a hand-built document carrying passwords. -/
theorem merge_documents_passwords_cleared_witness :
    (NewConversionOptions.OwnerPassword = "" ∧ NewConversionOptions.UserPassword = "") ∧
    ("" = "" ∧ "" = "") :=
  ⟨merge_documents_passwords_cleared.1
      [("documents", JValue.arr [JValue.obj [("ownerPassword", JValue.str "x")]])]
      { Documents := [NewConversionOptions], OwnerPassword := "",
        UserPassword := "", Watermark := none }
      rfl NewConversionOptions (List.Mem.head _),
   merge_documents_passwords_cleared.2
      { Documents := [{ NewConversionOptions with
          OwnerPassword := "a", UserPassword := "b" }], OwnerPassword := "o",
        UserPassword := "u", Watermark := none }
      NewConversionOptions (List.Mem.head _)⟩

/-! ## C1/C2 — merge fan-in machinery -/

/-- The effect of one consumed event on the `bufs` slot array: a result is
stored at its own index (`bufs[res.index] = res.buf`), an error writes
nothing (the loop returns instead). -/
def applyEvent {β ε : Type} (slots : List (Option β)) : MEvent β ε → List (Option β)
  | .res i b => slots.set i (some b)
  | .err _ => slots

theorem applyEvent_length {β ε : Type} (slots : List (Option β)) (e : MEvent β ε) :
    (applyEvent slots e).length = slots.length := by
  cases e <;> simp [applyEvent]

theorem foldl_applyEvent_length {β ε : Type} (events : List (MEvent β ε))
    (slots : List (Option β)) :
    (events.foldl applyEvent slots).length = slots.length := by
  induction events generalizing slots with
  | nil => rfl
  | cons e rest ih => rw [List.foldl_cons, ih, applyEvent_length]

/-- A fan-in loop fed only results runs to completion and merges the folded
slot array. -/
theorem mergeLoop_all_res {β ε : Type} (events : List (MEvent β ε))
    (slots : List (Option β)) (c : ℕ)
    (hall : ∀ e ∈ events, ∃ i b, e = MEvent.res i b)
    (hc : c + events.length = slots.length) :
    mergeLoop events slots c = .merged (events.foldl applyEvent slots) := by
  induction events generalizing slots c with
  | nil =>
    unfold mergeLoop
    rw [if_pos (by simpa using hc)]
    rfl
  | cons e rest ih =>
    obtain ⟨i, b, rfl⟩ := hall e (List.mem_cons_self e rest)
    unfold mergeLoop
    rw [if_neg (by simp at hc; omega)]
    dsimp only
    rw [List.foldl_cons]
    exact ih (slots.set i (some b)) (c + 1)
      (fun e' he' => hall e' (List.mem_cons_of_mem _ he'))
      (by simp at hc ⊢; omega)

/-- Positions never written by the fold keep their previous value. -/
theorem foldl_applyEvent_getElem_ne {β ε : Type} (events : List (MEvent β ε))
    (slots : List (Option β)) (i : ℕ)
    (hne : ∀ (j : ℕ) (b : β), MEvent.res j b ∈ events → j ≠ i) :
    (events.foldl applyEvent slots)[i]? = slots[i]? := by
  induction events generalizing slots with
  | nil => rfl
  | cons e rest ih =>
    rw [List.foldl_cons]
    rw [ih _ (fun j b hb => hne j b (List.mem_cons_of_mem _ hb))]
    cases e with
    | err _ => rfl
    | res j b =>
      exact List.getElem?_set_ne (hne j b (List.mem_cons_self _ _))

/-- A position written by the fold, all of whose writes carry the same
payload, holds that payload afterwards. -/
theorem foldl_applyEvent_getElem_write {β ε : Type} (events : List (MEvent β ε))
    (slots : List (Option β)) (i : ℕ) (b : β)
    (hmem : MEvent.res i b ∈ events)
    (huniq : ∀ x : β, MEvent.res i x ∈ events → x = b)
    (hi : i < slots.length) :
    (events.foldl applyEvent slots)[i]? = some (some b) := by
  induction events generalizing slots with
  | nil => simp at hmem
  | cons e rest ih =>
    rw [List.foldl_cons]
    by_cases hin : ∃ x : β, MEvent.res i x ∈ rest
    · obtain ⟨x, hx⟩ := hin
      have hxb : x = b := huniq x (List.mem_cons_of_mem _ hx)
      subst hxb
      exact ih (applyEvent slots e) hx
        (fun y hy => huniq y (List.mem_cons_of_mem _ hy))
        (by rw [applyEvent_length]; exact hi)
    · have he : e = MEvent.res i b := by
        rcases List.mem_cons.mp hmem with h | h
        · exact h.symm
        · exact absurd ⟨b, h⟩ hin
      subst he
      rw [foldl_applyEvent_getElem_ne rest _ i
        (fun j x hx hji => hin ⟨x, hji ▸ hx⟩)]
      exact List.getElem?_set_self (by simpa using hi)

/-- C1: for a merge of `n` documents, whatever order the `n` render tasks
complete in — any permutation of the index-tagged results `(i, buf i)` —
the fan-in loop of `mergeDocs` stores each buffer at its own index and hands
the PDF-engine merge step the buffers in original `Documents` order:
position `i` holds the buffer produced for document `i`. -/
theorem merge_output_order_invariant {β ε : Type} (n : ℕ) (buf : ℕ → β)
    (events : List (MEvent β ε))
    (hperm : List.Perm events ((List.range n).map (fun i => MEvent.res i (buf i)))) :
    mergeDocs n events = .merged ((List.range n).map (fun i => some (buf i))) := by
  have hlen : events.length = n := by simpa using hperm.length_eq
  have hall : ∀ e ∈ events, ∃ i, i < n ∧ e = MEvent.res i (buf i) := by
    intro e he
    have hmem : e ∈ (List.range n).map (fun i => MEvent.res i (buf i)) :=
      hperm.mem_iff.mp he
    simp only [List.mem_map, List.mem_range] at hmem
    obtain ⟨i, hi, hei⟩ := hmem
    exact ⟨i, hi, hei.symm⟩
  unfold mergeDocs
  rw [mergeLoop_all_res events _ 0
    (fun e he => by obtain ⟨i, -, rfl⟩ := hall e he; exact ⟨i, _, rfl⟩)
    (by simp [hlen])]
  congr 1
  apply List.ext_getElem?
  intro i
  by_cases hi : i < n
  · rw [foldl_applyEvent_getElem_write events _ i (buf i)
      (hperm.mem_iff.mpr (List.mem_map.mpr ⟨i, List.mem_range.mpr hi, rfl⟩))
      (fun x hx => by
        obtain ⟨j, -, hj⟩ := hall _ hx
        cases hj
        rfl)
      (by simpa using hi)]
    rw [List.getElem?_map, List.getElem?_range hi]
    rfl
  · rw [List.getElem?_eq_none_iff.mpr
      (by rw [foldl_applyEvent_length, List.length_replicate]; omega)]
    rw [List.getElem?_eq_none_iff.mpr (by simp; omega)]

/-- Witness for C1: three documents completing in the order 2, 0, 1 still
merge as 0, 1, 2. -/
theorem merge_output_order_invariant_witness :
    List.Perm [MEvent.res 2 (20 : ℕ), MEvent.res 0 0, MEvent.res 1 10]
      ((List.range 3).map (fun i => MEvent.res (ε := ℕ) i (10 * i))) ∧
    mergeDocs 3 [MEvent.res 2 (20 : ℕ), MEvent.res 0 0, MEvent.res 1 10] =
      MergeOutcome.merged (ε := ℕ) ((List.range 3).map (fun i => some (10 * i))) :=
  ⟨by decide, merge_output_order_invariant 3 (fun i => 10 * i) _ (by decide)⟩

/-- The half of the error contract that does hold: if the coordinator reads
an error from the error channel before it has collected all `n` results,
`mergeDocs` returns that error and the merge step is not invoked. -/
theorem mergeLoop_err_before_full {β ε : Type} (pre : List (MEvent β ε)) (e : ε)
    (post : List (MEvent β ε)) (slots : List (Option β)) (c : ℕ)
    (hres : ∀ ev ∈ pre, ∃ i b, ev = MEvent.res i b)
    (hlt : c + pre.length < slots.length) :
    mergeLoop (pre ++ MEvent.err e :: post) slots c = .failed e := by
  induction pre generalizing slots c with
  | nil =>
    unfold mergeLoop
    rw [if_neg (by simp at hlt; omega)]
    rfl
  | cons ev rest ih =>
    obtain ⟨i, b, rfl⟩ := hres ev (List.mem_cons_self ev rest)
    rw [List.cons_append]
    unfold mergeLoop
    rw [if_neg (by simp at hlt; omega)]
    dsimp only
    exact ih (slots.set i (some b)) (c + 1)
      (fun ev' he' => hres ev' (List.mem_cons_of_mem _ he'))
      (by simp at hlt ⊢; omega)

/-- C2 (code bug): `forMerge` sends the conversion error to `cerr` but,
lacking a `return`, still sends its index-tagged (partial) buffer to `cres`.
With one document whose conversion fails, both channel values are ready; if
the coordinator's `select` happens to take the result first, the count
reaches `n`, the PDF-engine merge step **is** invoked on the partial buffer,
and the error is never returned — refuting the claim that a failed document
always makes `Merge` return the error without merging.  The second conjunct
shows the schedule in which the error is read first, which does behave as
the claim says. -/
theorem merge_error_bypassed_by_result_drain :
    mergeDocs 1 [MEvent.res 0 (37 : ℕ), MEvent.err (5 : ℕ)] =
      MergeOutcome.merged [some 37] ∧
    mergeDocs 1 [MEvent.err (5 : ℕ), MEvent.res 0 (37 : ℕ)] =
      MergeOutcome.failed 5 := by
  decide

